import Mathlib

/-
Verification development for the `dnscache` package: a bounded DNS lookup
cache (LRU store) in front of a name resolver, with single-flight
deduplication of concurrent identical lookups, per-caller cancellation
handling, and a full-cache refresh sweep.

The definitions below are a shallow embedding of `dnscache.go`.  The pure
data path (cache lookups, key encoding, store updates) is translated
directly.  Effects are made explicit:
  - the underlying DNS resolver (`net.Resolver` or the injected
    `DNSResolver`) is an `Oracle`: a pure map from subject to outcome;
  - Go `panic` sites become `Except Panic`;
  - Go `error` values become `Option GoError`, with the two `context`
    sentinels distinguished;
  - counters record how often the underlying resolver and the
    `OnCacheMiss` hook site are reached (in Go the hook runs only when the
    field is non-nil; the counter counts reaches of the guarded call site);
  - the select over the caller's context and the single-flight channel in
    `update` is parameterized by the observed `WaitOutcome`: which arm
    fired and, for a flight completion, the delivered
    `singleflight.Result` (value, error, Shared flag).  The sequential
    driver `update` is the projection where the flight completes and no
    concurrent duplicate existed (`Shared = false`), which is the only
    possible outcome for a context that is never done
    (`context.Background()`, as used by `Refresh`).
-/

set_option autoImplicit false

namespace Dnscache

/-- Models the Go `error` values this code distinguishes:
`context.DeadlineExceeded`, `context.Canceled`, and any other resolver
error (compared only for equality). -/
inductive GoError where
  | deadlineExceeded
  | canceled
  | other (msg : String)
deriving DecidableEq, Repr

/-- Models `cacheEntry`: the cached outcome of one key, a record list and
an error (`none` models Go `nil`). -/
structure CacheEntry where
  rrs : List String
  err : Option GoError
deriving DecidableEq, Repr

/-- Association-list lookup: the value stored under `k`, if any.  Models
the map read inside the LRU's `Get`. -/
def getEntry : List (String × CacheEntry) → String → Option CacheEntry
  | [], _ => none
  | (k', v) :: rest, k => if k' = k then some v else getEntry rest k

/-- Removes the first pair keyed `k` (the only one, keys being unique in
the LRU). -/
def removeKey : List (String × CacheEntry) → String → List (String × CacheEntry)
  | [], _ => []
  | (k', v) :: rest, k => if k' = k then rest else (k', v) :: removeKey rest k

/-- Replaces the value of the first pair keyed `k`, leaving its key and
position: models the in-place mutation of the entry found by `Get` in
`storeLocked`. -/
def setEntry : List (String × CacheEntry) → String → CacheEntry → List (String × CacheEntry)
  | [], _, _ => []
  | (k', v) :: rest, k, e => if k' = k then (k', e) :: rest else (k', v) :: setEntry rest k e

/-- Models the external `hashicorp/golang-lru` cache used as the bounded
Store (the spec's "Bounded Store", an assumed external capability):
a fixed capacity and the entries in most-recently-used-first order. -/
structure LRU where
  cap : Nat
  items : List (String × CacheEntry)
deriving DecidableEq, Repr

/-- Models `lru.Cache.Get`: on a hit the entry moves to the
most-recently-used position; on a miss the cache is unchanged. -/
def LRU.get (c : LRU) (k : String) : Option CacheEntry × LRU :=
  match getEntry c.items k with
  | some v => (some v, ⟨c.cap, (k, v) :: removeKey c.items k⟩)
  | none => (none, c)

/-- Models `lru.Cache.Add`: the pair moves to (or enters at) the
most-recently-used position; if the length then exceeds the capacity the
least-recently-used pair (the last) is evicted. -/
def LRU.add (c : LRU) (k : String) (v : CacheEntry) : LRU :=
  let moved := (k, v) :: removeKey c.items k
  ⟨c.cap, if c.cap < moved.length then moved.dropLast else moved⟩

/-- Models `lru.Cache.Keys`: all keys, oldest first. -/
def LRU.keys (c : LRU) : List String := (c.items.map Prod.fst).reverse

/-- Models `lru.New(size)`: fails (returns a `nil` cache alongside an
error) when the requested size is not positive. -/
def lruNew (size : Int) : Option LRU :=
  if size ≤ 0 then none else some ⟨size.toNat, []⟩

/-- The key list of a cache, most recent first. -/
def entryKeys (c : LRU) : List String := c.items.map Prod.fst

/-- The underlying resolution capability consumed by the cache
(`DNSResolver`: forward and reverse lookup), as a pure oracle. -/
structure Oracle where
  lookupHost : String → List String × Option GoError
  lookupAddr : String → List String × Option GoError

/-- The `panic` sites reachable from this code: the two aborts in
`lookupFunc` and the nil-pointer dereference on the `cache` field when
`lru.New` failed in `NewDNSResolver`. -/
inductive Panic where
  | emptyKey
  | invalidKeyType (key : String)
  | nilCache
deriving DecidableEq, Repr

/-- Models `Resolver.load`: a `Get` on the cache, returning the entry's
fields on a hit.  (The read lock is a no-op in this sequential model.) -/
def load (c : LRU) (key : String) : Option CacheEntry × LRU :=
  c.get key

/-- Models `Resolver.storeLocked`: `Get` the key; on a hit mutate the
found entry in place (the `Get` has already moved it to the front), else
`Add` a fresh entry. -/
def storeLocked (c : LRU) (key : String) (rrs : List String) (err : Option GoError) : LRU :=
  match c.get key with
  | (some _, c') => ⟨c'.cap, setEntry c'.items key ⟨rrs, err⟩⟩
  | (none, c') => c'.add key ⟨rrs, err⟩

/-- Models `Resolver.lookupFunc` and the execution of the closure it
returns: aborts on an empty key, dispatches on the first character
(`h` forward, `r` reverse) passing the remainder as the subject, and
aborts on any other first character.  The `Timeout`-bounded context the
closure arms around the underlying call is absorbed into the oracle's
outcome. -/
def lookupFunc (o : Oracle) (key : String) : Except Panic (List String × Option GoError) :=
  match key.data with
  | [] => .error .emptyKey
  | ch :: rest =>
      if ch = 'h' then .ok (o.lookupHost (String.mk rest))
      else if ch = 'r' then .ok (o.lookupAddr (String.mk rest))
      else .error (.invalidKeyType key)

/-- Models `singleflight.Result` as delivered on the `DoChan` channel:
the value (already narrowed to `[]string`), the error, and the `Shared`
flag (true when other callers were attached to the same flight). -/
structure FlightResult where
  val : List String
  err : Option GoError
  shared : Bool
deriving DecidableEq, Repr

/-- The observed outcome of the `select` in `Resolver.update`: either the
caller's own context fired first (with its `ctx.Err()`), or the flight
result arrived. -/
inductive WaitOutcome where
  | ctxDone (e : GoError)
  | flightDone (res : FlightResult)
deriving DecidableEq, Repr

/-- What one `Resolver.update` call produced: the returned pair, the
cache afterwards, whether `lookupGroup.Forget` ran, and whether
`storeLocked` ran. -/
structure UpdateResult where
  rrs : List String
  err : Option GoError
  cache : LRU
  forgot : Bool
  stored : Bool
deriving DecidableEq, Repr

/-- Models the body of `Resolver.update` after the `select` resolved to
`w`.  Context arm: return `ctx.Err()`, `Forget` the key exactly when that
error is `context.DeadlineExceeded`, touch nothing else.  Flight arm: if
the result was shared, re-`load` and return a found entry as is;
otherwise take the flight's error, its value when the error is `nil`
(`rrs` stays Go-`nil`, here `[]`, on a failed flight), and `storeLocked`
the pair. -/
def updateWith (c : LRU) (key : String) (w : WaitOutcome) : UpdateResult :=
  match w with
  | .ctxDone e =>
      { rrs := [], err := some e, cache := c,
        forgot := decide (e = GoError.deadlineExceeded), stored := false }
  | .flightDone res =>
      if res.shared then
        match load c key with
        | (some entry, c') =>
            { rrs := entry.rrs, err := entry.err, cache := c', forgot := false, stored := false }
        | (none, c') =>
            let err := res.err
            let rrs := if err = none then res.val else []
            { rrs := rrs, err := err, cache := storeLocked c' key rrs err,
              forgot := false, stored := true }
      else
        let err := res.err
        let rrs := if err = none then res.val else []
        { rrs := rrs, err := err, cache := storeLocked c key rrs err,
          forgot := false, stored := true }

/-- Models `Resolver.update` for a caller whose context never fires while
waiting (a live caller context, or `context.Background()` as `Refresh`
passes): `DoChan` runs `lookupFunc`'s closure once and the flight result
arrives unshared (no concurrent duplicate exists in this sequential
model). -/
def update (o : Oracle) (c : LRU) (key : String) : Except Panic UpdateResult := do
  let (val, err) ← lookupFunc o key
  pure (updateWith c key (.flightDone ⟨val, err, false⟩))

/-- What one cache-level operation produced: the returned pair, the
cache afterwards, how many underlying resolver calls ran, and how often
the `OnCacheMiss` hook site was reached. -/
structure OpResult where
  rrs : List String
  err : Option GoError
  cache : LRU
  resolverCalls : Nat
  missHookCalls : Nat
deriving DecidableEq, Repr

/-- Models `Resolver.lookup`: `load` the key; on a hit return the cached
pair (no resolver call, no hook); on a miss reach the `OnCacheMiss` hook
site and delegate to `update`, which performs one underlying call. -/
def lookup (o : Oracle) (c : LRU) (key : String) : Except Panic OpResult :=
  match load c key with
  | (some entry, c') =>
      .ok { rrs := entry.rrs, err := entry.err, cache := c',
            resolverCalls := 0, missHookCalls := 0 }
  | (none, c') => do
      let u ← update o c' key
      pure { rrs := u.rrs, err := u.err, cache := u.cache,
             resolverCalls := 1, missHookCalls := 1 }

/-- The cache key `LookupHost` builds: `"h" + host`. -/
def hostKey (host : String) : String := "h" ++ host

/-- The cache key `LookupAddr` builds: `"r" + addr`. -/
def addrKey (addr : String) : String := "r" ++ addr

/-- Models the `Resolver` struct's owned mutable state: the `cache`
field, `none` when `lru.New` failed and left it `nil`.  `Timeout` and the
injected `DNSResolver` are absorbed into the `Oracle`; `OnCacheMiss` is
tracked by the hook counter. -/
structure Resolver where
  cache : Option LRU
deriving Repr

/-- Models `NewDNSResolver`: `lru.New(cacheSize)`'s error is discarded
(`cache, _ := lru.New(cacheSize)`), so a non-positive size silently
yields a resolver with a `nil` cache. -/
def NewDNSResolver (cacheSize : Int) : Resolver :=
  { cache := lruNew cacheSize }

/-- Models `Resolver.LookupHost`: `lookup` under the key `"h" + host`.
A `nil` cache aborts at the first cache access inside `load`. -/
def Resolver.LookupHost (o : Oracle) (r : Resolver) (host : String) : Except Panic OpResult :=
  match r.cache with
  | none => .error .nilCache
  | some c => lookup o c (hostKey host)

/-- Models `Resolver.LookupAddr`: `lookup` under the key `"r" + addr`. -/
def Resolver.LookupAddr (o : Oracle) (r : Resolver) (addr : String) : Except Panic OpResult :=
  match r.cache with
  | none => .error .nilCache
  | some c => lookup o c (addrKey addr)

/-- The loop body of `Resolver.Refresh`: `update` each enumerated key in
turn (each performing one underlying call, never reaching the hook site),
threading the cache and the two counters. -/
def refreshLoop (o : Oracle) : List String → LRU → Nat → Nat → Except Panic (LRU × Nat × Nat)
  | [], c, rc, mc => .ok (c, rc, mc)
  | k :: ks, c, rc, mc => do
      let u ← update o c k
      refreshLoop o ks u.cache (rc + 1) mc

/-- Models `Resolver.Refresh`: snapshot `cache.Keys()` and `update` each
key with `context.Background()` (a context that is never done, so each
caller-side wait is unbounded and only the flight arm of the select can
fire).  Returns the final cache, the resolver-call count and the
hook-site count. -/
def Refresh (o : Oracle) (c : LRU) : Except Panic (LRU × Nat × Nat) :=
  refreshLoop o c.keys c 0 0

/-- `Refresh` at the `Resolver` level: a `nil` cache aborts at
`cache.Keys()`. -/
def Resolver.Refresh (o : Oracle) (r : Resolver) : Except Panic (LRU × Nat × Nat) :=
  match r.cache with
  | none => .error .nilCache
  | some c => Dnscache.Refresh o c

/-- Runs a sequence of lookups, threading the cache (a panic leaves the
cache as it was: both aborts in `lookupFunc` fire before any store). -/
def lookupMany (o : Oracle) (c : LRU) (ks : List String) : LRU :=
  ks.foldl (fun c k => match lookup o c k with | .ok e => e.cache | .error _ => c) c

/-- The keys the public operations actually build: a `'h'` or `'r'`
discriminator followed by the subject. -/
def validKey (key : String) : Prop :=
  ∃ rest, key.data = 'h' :: rest ∨ key.data = 'r' :: rest

/-- A concrete oracle for the capacity-2 scenario: every forward lookup
succeeds with a single address derived from the host. -/
def scenarioOracle : Oracle :=
  ⟨fun s => ([s ++ ".ip"], none), fun s => ([s], none)⟩

/-- The spec's capacity-2 scenario, composed from the embedded
operations: lookups for `a`, `b`, `c` (all missing, all succeeding) on an
empty capacity-2 cache, then a lookup for `a`; yields the key list after
the third lookup and the fourth lookup's two effect counters. -/
def capacityScenario : Except Panic (List String × Nat × Nat) := do
  let e1 ← lookup scenarioOracle ⟨2, []⟩ (hostKey "a")
  let e2 ← lookup scenarioOracle e1.cache (hostKey "b")
  let e3 ← lookup scenarioOracle e2.cache (hostKey "c")
  let e4 ← lookup scenarioOracle e3.cache (hostKey "a")
  pure (e3.cache.keys, e4.resolverCalls, e4.missHookCalls)

/-- A concrete oracle recording the subject it was invoked on, used to
exhibit that an empty subject reaches the underlying resolver. -/
def markingOracle : Oracle :=
  ⟨fun s => (["ip-" ++ s], none), fun s => (["name-" ++ s], none)⟩

end Dnscache
namespace Dnscache

theorem getEntry_cons_self (k : String) (v : CacheEntry) (rest : List (String × CacheEntry)) :
    getEntry ((k, v) :: rest) k = some v := by
  simp [getEntry]

theorem removeKey_cons_self (k : String) (v : CacheEntry) (rest : List (String × CacheEntry)) :
    removeKey ((k, v) :: rest) k = rest := by
  simp [removeKey]

theorem removeKey_eq_of_getEntry_none (l : List (String × CacheEntry)) (k : String)
    (h : getEntry l k = none) : removeKey l k = l := by
  induction l with
  | nil => rfl
  | cons p rest ih =>
      obtain ⟨k', v⟩ := p
      by_cases hk : k' = k
      · simp [getEntry, hk] at h
      · simp [getEntry, hk] at h
        simp [removeKey, hk, ih h]

theorem removeKey_length_le (l : List (String × CacheEntry)) (k : String) :
    (removeKey l k).length ≤ l.length := by
  induction l with
  | nil => simp [removeKey]
  | cons p rest ih =>
      obtain ⟨k', v⟩ := p
      by_cases hk : k' = k
      · simp [removeKey, hk]
      · simp only [removeKey, hk, if_false, List.length_cons]
        omega

theorem removeKey_length_of_found (l : List (String × CacheEntry)) (k : String)
    (v : CacheEntry) (h : getEntry l k = some v) :
    (removeKey l k).length + 1 = l.length := by
  induction l with
  | nil => simp [getEntry] at h
  | cons p rest ih =>
      obtain ⟨k', v'⟩ := p
      by_cases hk : k' = k
      · simp [removeKey, hk]
      · simp only [getEntry, hk, if_false] at h
        have hih := ih h
        simp only [removeKey, hk, if_false, List.length_cons]
        omega

theorem getEntry_isSome_of_mem (l : List (String × CacheEntry)) (k : String)
    (h : k ∈ l.map Prod.fst) : ∃ v, getEntry l k = some v := by
  induction l with
  | nil => simp at h
  | cons p rest ih =>
      obtain ⟨k', v'⟩ := p
      by_cases hk : k' = k
      · exact ⟨v', by simp [getEntry, hk]⟩
      · simp only [List.map_cons, List.mem_cons] at h
        rcases h with h | h
        · exact absurd h.symm hk
        · obtain ⟨v, hv⟩ := ih h
          exact ⟨v, by simp [getEntry, hk, hv]⟩

theorem setEntry_map_fst (l : List (String × CacheEntry)) (k : String) (e : CacheEntry) :
    (setEntry l k e).map Prod.fst = l.map Prod.fst := by
  induction l with
  | nil => rfl
  | cons p rest ih =>
      obtain ⟨k', v'⟩ := p
      by_cases hk : k' = k
      · simp [setEntry, hk]
      · simp [setEntry, hk, ih]

theorem perm_cons_removeKey (l : List (String × CacheEntry)) (k : String) (v : CacheEntry)
    (h : getEntry l k = some v) :
    (k :: (removeKey l k).map Prod.fst).Perm (l.map Prod.fst) := by
  induction l with
  | nil => simp [getEntry] at h
  | cons p rest ih =>
      obtain ⟨k', v'⟩ := p
      by_cases hk : k' = k
      · subst hk
        simp [removeKey]
      · simp only [getEntry, hk, if_false] at h
        simp only [removeKey, hk, if_false, List.map_cons]
        exact (List.Perm.swap k' k _).trans ((ih h).cons k')

end Dnscache

namespace Dnscache

theorem add_cap (c : LRU) (k : String) (v : CacheEntry) : (c.add k v).cap = c.cap := rfl

theorem add_length_le (c : LRU) (k : String) (v : CacheEntry)
    (h : c.items.length ≤ c.cap) : (c.add k v).items.length ≤ c.cap := by
  have hrk := removeKey_length_le c.items k
  simp only [LRU.add]
  split
  · rename_i hlt
    simp only [List.length_dropLast, List.length_cons]
    omega
  · rename_i hge
    simp only [List.length_cons] at hge ⊢
    omega

theorem add_items_head (c : LRU) (k : String) (v : CacheEntry)
    (hcap : 0 < c.cap) (h : getEntry c.items k = none) :
    ∃ rest, (c.add k v).items = (k, v) :: rest := by
  simp only [LRU.add, removeKey_eq_of_getEntry_none c.items k h]
  split
  · rename_i hlt
    match hi : c.items with
    | [] =>
        rw [hi] at hlt
        simp at hlt
        omega
    | p :: t =>
        exact ⟨(p :: t).dropLast, rfl⟩
  · exact ⟨c.items, rfl⟩

theorem add_items_of_full (c : LRU) (k : String) (v : CacheEntry)
    (h : getEntry c.items k = none) (hfull : c.items.length = c.cap) (hcap : 0 < c.cap) :
    (c.add k v).items = (k, v) :: c.items.dropLast := by
  simp only [LRU.add, removeKey_eq_of_getEntry_none c.items k h]
  have hlt : c.cap < ((k, v) :: c.items).length := by simp; omega
  rw [if_pos hlt]
  match hi : c.items with
  | [] => rw [hi] at hfull; simp at hfull; omega
  | p :: t => simp [List.dropLast]

theorem storeLocked_found (c : LRU) (k : String) (v : CacheEntry)
    (rrs : List String) (err : Option GoError) (h : getEntry c.items k = some v) :
    storeLocked c k rrs err = ⟨c.cap, (k, ⟨rrs, err⟩) :: removeKey c.items k⟩ := by
  simp [storeLocked, LRU.get, h, setEntry]

theorem storeLocked_fresh (c : LRU) (k : String)
    (rrs : List String) (err : Option GoError) (h : getEntry c.items k = none) :
    storeLocked c k rrs err = c.add k ⟨rrs, err⟩ := by
  simp [storeLocked, LRU.get, h]

theorem lookupFunc_ok_of_validKey (o : Oracle) (key : String) (h : validKey key) :
    ∃ p, lookupFunc o key = .ok p := by
  obtain ⟨rest, h | h⟩ := h
  · exact ⟨o.lookupHost (String.mk rest), by simp [lookupFunc, h]⟩
  · exact ⟨o.lookupAddr (String.mk rest), by simp [lookupFunc, h]⟩

theorem update_eq_ok (o : Oracle) (c : LRU) (key : String)
    (p : List String × Option GoError) (h : lookupFunc o key = .ok p) :
    update o c key = .ok (updateWith c key (.flightDone ⟨p.1, p.2, false⟩)) := by
  obtain ⟨val, err⟩ := p
  simp [update, h]

theorem lookup_hit (o : Oracle) (c : LRU) (k : String) (entry : CacheEntry)
    (h : getEntry c.items k = some entry) :
    lookup o c k = .ok { rrs := entry.rrs, err := entry.err,
                         cache := ⟨c.cap, (k, entry) :: removeKey c.items k⟩,
                         resolverCalls := 0, missHookCalls := 0 } := by
  simp [lookup, load, LRU.get, h]

theorem lookup_miss (o : Oracle) (c : LRU) (k : String)
    (p : List String × Option GoError)
    (hget : getEntry c.items k = none) (hf : lookupFunc o k = .ok p) :
    lookup o c k = .ok
      { rrs := (updateWith c k (.flightDone ⟨p.1, p.2, false⟩)).rrs
        err := (updateWith c k (.flightDone ⟨p.1, p.2, false⟩)).err
        cache := (updateWith c k (.flightDone ⟨p.1, p.2, false⟩)).cache
        resolverCalls := 1, missHookCalls := 1 } := by
  simp [lookup, load, LRU.get, hget, update_eq_ok o c k p hf]

theorem updateWith_unshared (c : LRU) (key : String) (val : List String)
    (err : Option GoError) :
    updateWith c key (.flightDone ⟨val, err, false⟩) =
      { rrs := if err = none then val else [], err := err
        cache := storeLocked c key (if err = none then val else []) err
        forgot := false, stored := true } := by
  simp [updateWith]

end Dnscache

namespace Dnscache

theorem lookup_miss_err (o : Oracle) (c : LRU) (k : String) (e : Panic)
    (hget : getEntry c.items k = none) (hf : lookupFunc o k = .error e) :
    lookup o c k = .error e := by
  simp [lookup, load, LRU.get, hget, update, hf]

theorem storeLocked_cap (c : LRU) (k : String) (rrs : List String) (err : Option GoError) :
    (storeLocked c k rrs err).cap = c.cap := by
  cases hget : getEntry c.items k with
  | some v => rw [storeLocked_found c k v rrs err hget]
  | none => rw [storeLocked_fresh c k rrs err hget, add_cap]

theorem lookup_ok_head (o : Oracle) (c : LRU) (k : String) (eff : OpResult)
    (hcap : 0 < c.cap) (h : lookup o c k = .ok eff) :
    eff.cache.cap = c.cap ∧ ∃ rest, eff.cache.items = (k, ⟨eff.rrs, eff.err⟩) :: rest := by
  cases hget : getEntry c.items k with
  | some entry =>
      rw [lookup_hit o c k entry hget] at h
      simp only [Except.ok.injEq] at h
      subst h
      exact ⟨rfl, removeKey c.items k, rfl⟩
  | none =>
      cases hf : lookupFunc o k with
      | error e =>
          rw [lookup_miss_err o c k e hget hf] at h
          cases h
      | ok p =>
          rw [lookup_miss o c k p hget hf] at h
          simp only [Except.ok.injEq] at h
          subst h
          simp only [updateWith_unshared]
          rw [storeLocked_fresh c k _ p.2 hget]
          refine ⟨add_cap c k _, ?_⟩
          exact add_items_head c k _ hcap hget

theorem lookup_cap (o : Oracle) (c : LRU) (k : String) (eff : OpResult)
    (h : lookup o c k = .ok eff) : eff.cache.cap = c.cap := by
  cases hget : getEntry c.items k with
  | some entry =>
      rw [lookup_hit o c k entry hget] at h
      simp only [Except.ok.injEq] at h
      subst h
      rfl
  | none =>
      cases hf : lookupFunc o k with
      | error e =>
          rw [lookup_miss_err o c k e hget hf] at h
          cases h
      | ok p =>
          rw [lookup_miss o c k p hget hf] at h
          simp only [Except.ok.injEq] at h
          subst h
          simp only [updateWith_unshared]
          exact storeLocked_cap c k _ p.2

theorem lookup_length_le (o : Oracle) (c : LRU) (k : String) (eff : OpResult)
    (hlen : c.items.length ≤ c.cap) (h : lookup o c k = .ok eff) :
    eff.cache.items.length ≤ c.cap := by
  cases hget : getEntry c.items k with
  | some entry =>
      rw [lookup_hit o c k entry hget] at h
      simp only [Except.ok.injEq] at h
      subst h
      have := removeKey_length_of_found c.items k entry hget
      simp only [List.length_cons]
      omega
  | none =>
      cases hf : lookupFunc o k with
      | error e =>
          rw [lookup_miss_err o c k e hget hf] at h
          cases h
      | ok p =>
          rw [lookup_miss o c k p hget hf] at h
          simp only [Except.ok.injEq] at h
          subst h
          simp only [updateWith_unshared]
          rw [storeLocked_fresh c k _ p.2 hget]
          exact add_length_le c k _ hlen

theorem lookupMany_cap_length (o : Oracle) (ks : List String) :
    ∀ c : LRU, c.items.length ≤ c.cap →
      (lookupMany o c ks).cap = c.cap ∧ (lookupMany o c ks).items.length ≤ c.cap := by
  induction ks with
  | nil => intro c h; exact ⟨rfl, h⟩
  | cons k ks ih =>
      intro c h
      have hstep : lookupMany o c (k :: ks) =
          lookupMany o (match lookup o c k with | .ok e => e.cache | .error _ => c) ks := by
        simp [lookupMany]
      cases hl : lookup o c k with
      | error e =>
          rw [hstep, hl]
          exact ih c h
      | ok eff =>
          rw [hstep, hl]
          have hc := lookup_cap o c k eff hl
          have hle : eff.cache.items.length ≤ eff.cache.cap := by
            rw [hc]; exact lookup_length_le o c k eff h hl
          obtain ⟨h1, h2⟩ := ih eff.cache hle
          exact ⟨h1.trans hc, by rw [← hc]; exact h2⟩

end Dnscache

namespace Dnscache

theorem storeLocked_perm_of_found (c : LRU) (k : String) (v : CacheEntry)
    (rrs : List String) (err : Option GoError) (h : getEntry c.items k = some v) :
    ((storeLocked c k rrs err).items.map Prod.fst).Perm (c.items.map Prod.fst) := by
  rw [storeLocked_found c k v rrs err h]
  exact perm_cons_removeKey c.items k v h

theorem update_found (o : Oracle) (c : LRU) (k : String) (v : CacheEntry)
    (hv : getEntry c.items k = some v) (hk : validKey k) :
    ∃ u, update o c k = .ok u ∧
      ((u.cache.items.map Prod.fst).Perm (c.items.map Prod.fst)) := by
  obtain ⟨p, hp⟩ := lookupFunc_ok_of_validKey o k hk
  refine ⟨updateWith c k (.flightDone ⟨p.1, p.2, false⟩), update_eq_ok o c k p hp, ?_⟩
  simp only [updateWith_unshared]
  exact storeLocked_perm_of_found c k v _ p.2 hv

theorem refreshLoop_spec (o : Oracle) (ks : List String) :
    ∀ (c : LRU) (rc mc : Nat),
      (∀ k ∈ ks, validKey k) → (∀ k ∈ ks, k ∈ c.items.map Prod.fst) →
      ∃ c', refreshLoop o ks c rc mc = .ok (c', rc + ks.length, mc) ∧
        (c'.items.map Prod.fst).Perm (c.items.map Prod.fst) := by
  induction ks with
  | nil =>
      intro c rc mc _ _
      exact ⟨c, by simp [refreshLoop], List.Perm.refl _⟩
  | cons k ks ih =>
      intro c rc mc hv hm
      obtain ⟨v, hv0⟩ := getEntry_isSome_of_mem c.items k (hm k (by simp))
      obtain ⟨u, hu, hperm⟩ := update_found o c k v hv0 (hv k (by simp))
      obtain ⟨c', hc', hperm'⟩ := ih u.cache (rc + 1) mc
        (fun k2 hk2 => hv k2 (by simp [hk2]))
        (fun k2 hk2 => hperm.mem_iff.2 (hm k2 (by simp [hk2])))
      refine ⟨c', ?_, hperm'.trans hperm⟩
      have hstep : refreshLoop o (k :: ks) c rc mc = refreshLoop o ks u.cache (rc + 1) mc := by
        simp only [refreshLoop, hu]
        rfl
      rw [hstep, hc']
      have : rc + 1 + ks.length = rc + (k :: ks).length := by
        simp only [List.length_cons]
        omega
      rw [this]

end Dnscache

namespace Dnscache

theorem string_eq_of_data_eq {s t : String} (h : s.data = t.data) : s = t := by
  cases s
  cases t
  exact congrArg String.mk h

theorem string_data_append (s t : String) : (s ++ t).data = s.data ++ t.data := by
  cases s; cases t; rfl

theorem hostKey_data (h : String) : (hostKey h).data = 'h' :: h.data := by
  rw [hostKey, string_data_append]
  rfl

theorem addrKey_data (a : String) : (addrKey a).data = 'r' :: a.data := by
  rw [addrKey, string_data_append]
  rfl

/-- C1: once a lookup for a key has completed and stored an outcome
(success or failure alike), a lookup for that key against a store still
holding that entry returns exactly the stored pair, performing no
underlying resolver call and never reaching the miss-hook site. -/
theorem cache_hit_returns_stored_outcome :
    (∀ (o : Oracle) (c : LRU) (k : String) (e : CacheEntry),
        getEntry c.items k = some e →
        lookup o c k = .ok { rrs := e.rrs, err := e.err,
                             cache := ⟨c.cap, (k, e) :: removeKey c.items k⟩,
                             resolverCalls := 0, missHookCalls := 0 }) ∧
    (∀ (o : Oracle) (c : LRU) (k : String) (eff : OpResult),
        0 < c.cap → lookup o c k = .ok eff →
        lookup o eff.cache k = .ok { rrs := eff.rrs, err := eff.err, cache := eff.cache,
                                     resolverCalls := 0, missHookCalls := 0 }) := by
  constructor
  · intro o c k e he
    exact lookup_hit o c k e he
  · intro o c k eff hcap h
    obtain ⟨hc, rest, hitems⟩ := lookup_ok_head o c k eff hcap h
    have hget : getEntry eff.cache.items k = some ⟨eff.rrs, eff.err⟩ := by
      rw [hitems]; exact getEntry_cons_self k _ rest
    have hrm : removeKey eff.cache.items k = rest := by
      rw [hitems]; exact removeKey_cons_self k _ rest
    rw [lookup_hit o eff.cache k ⟨eff.rrs, eff.err⟩ hget]
    have hcache : (⟨eff.cache.cap,
        (k, (⟨eff.rrs, eff.err⟩ : CacheEntry)) :: removeKey eff.cache.items k⟩ : LRU) =
        eff.cache := by
      rw [hrm, ← hitems]
    rw [hcache]

theorem cache_hit_returns_stored_outcome_witness :
    lookup scenarioOracle (LRU.mk 2 [(hostKey "a", CacheEntry.mk ["a.ip"] none)]) (hostKey "a") =
      .ok { rrs := ["a.ip"], err := none,
            cache := LRU.mk 2 [(hostKey "a", CacheEntry.mk ["a.ip"] none)],
            resolverCalls := 0, missHookCalls := 0 } :=
  cache_hit_returns_stored_outcome.2 scenarioOracle (LRU.mk 2 []) (hostKey "a")
    (OpResult.mk ["a.ip"] none (LRU.mk 2 [(hostKey "a", CacheEntry.mk ["a.ip"] none)]) 1 1)
    (by decide) (by rfl)

end Dnscache

namespace Dnscache

/-- C2: when the flight outcome is marked shared, `update` re-reads the
Store: a found entry is returned as is and nothing is stored; otherwise
the flight's own pair is returned and stored. -/
theorem shared_flight_rereads_store (c : LRU) (key : String) (res : FlightResult)
    (hsh : res.shared = true) :
    (∀ (entry : CacheEntry) (c' : LRU), load c key = (some entry, c') →
        updateWith c key (.flightDone res) =
          { rrs := entry.rrs, err := entry.err, cache := c',
            forgot := false, stored := false }) ∧
    (∀ c' : LRU, load c key = (none, c') →
        updateWith c key (.flightDone res) =
          { rrs := if res.err = none then res.val else [], err := res.err,
            cache := storeLocked c' key (if res.err = none then res.val else []) res.err,
            forgot := false, stored := true }) := by
  constructor
  · intro entry c' hl
    simp [updateWith, hsh, hl]
  · intro c' hl
    simp [updateWith, hsh, hl]

theorem shared_flight_rereads_store_witness :
    updateWith (LRU.mk 2 [(hostKey "a", CacheEntry.mk ["a.ip"] none)]) (hostKey "a")
        (.flightDone (FlightResult.mk ["stale.ip"] none true)) =
      { rrs := ["a.ip"], err := none,
        cache := LRU.mk 2 [(hostKey "a", CacheEntry.mk ["a.ip"] none)],
        forgot := false, stored := false } :=
  (shared_flight_rereads_store (LRU.mk 2 [(hostKey "a", CacheEntry.mk ["a.ip"] none)])
      (hostKey "a") (FlightResult.mk ["stale.ip"] none true) rfl).1
    (CacheEntry.mk ["a.ip"] none) (LRU.mk 2 [(hostKey "a", CacheEntry.mk ["a.ip"] none)]) rfl

/-- C3: a caller whose own context fires while waiting receives exactly
the context's error, and its `update` call leaves the Store untouched:
`storeLocked` does not run and the cache is unchanged. -/
theorem ctx_cancel_leaves_store_unchanged (c : LRU) (key : String) (e : GoError) :
    (updateWith c key (.ctxDone e)).err = some e ∧
    (updateWith c key (.ctxDone e)).cache = c ∧
    (updateWith c key (.ctxDone e)).stored = false :=
  ⟨rfl, rfl, rfl⟩

/-- C4: on the context arm, the in-flight marker is forgotten exactly
when the context's error is `context.DeadlineExceeded`; any other
cancellation leaves the marker in place. -/
theorem forget_iff_deadline_exceeded (c : LRU) (key : String) (e : GoError) :
    (updateWith c key (.ctxDone e)).forgot = true ↔ e = GoError.deadlineExceeded := by
  simp [updateWith]

end Dnscache

namespace Dnscache

def oneEntryCache : LRU := LRU.mk 2 [(hostKey "a", CacheEntry.mk ["old.ip"] none)]

/-- C5: a refresh enumerates exactly the keys present in the Store,
re-resolves each through the update path (one underlying call per key,
no cache-hit check), creates no new keys, and leaves the key count
unchanged (hence non-increasing). -/
theorem refresh_updates_existing_keys_only (o : Oracle) (c : LRU)
    (hv : ∀ k ∈ c.items.map Prod.fst, validKey k) :
    ∃ c' rc mc, Refresh o c = .ok (c', rc, mc) ∧
      ((c'.items.map Prod.fst).Perm (c.items.map Prod.fst)) ∧
      c'.items.length = c.items.length ∧
      rc = c.items.length := by
  have hkeys : c.keys = (c.items.map Prod.fst).reverse := rfl
  obtain ⟨c', hc', hperm⟩ := refreshLoop_spec o c.keys c 0 0
    (fun k hk => hv k (by rw [hkeys] at hk; exact List.mem_reverse.1 hk))
    (fun k hk => by rw [hkeys] at hk; exact List.mem_reverse.1 hk)
  refine ⟨c', 0 + c.keys.length, 0, hc', hperm, ?_, ?_⟩
  · have := hperm.length_eq
    simpa using this
  · rw [hkeys]
    simp

theorem refresh_updates_existing_keys_only_witness :
    ∃ c' rc mc, Refresh scenarioOracle oneEntryCache = .ok (c', rc, mc) ∧
      ((c'.items.map Prod.fst).Perm (oneEntryCache.items.map Prod.fst)) ∧
      c'.items.length = oneEntryCache.items.length ∧
      rc = oneEntryCache.items.length :=
  refresh_updates_existing_keys_only scenarioOracle oneEntryCache
    (by
      intro k hk
      simp [oneEntryCache] at hk
      subst hk
      exact ⟨"a".data, Or.inl rfl⟩)

end Dnscache

namespace Dnscache

/-- C6: the Store never exceeds its capacity under lookups; an insertion
of a fresh key into a full store evicts exactly the least-recently-used
(oldest) entry; and in the concrete capacity-2 scenario, lookups for a,
b, c leave exactly the keys of b and c, and a fourth lookup for a is a
fresh miss performing one underlying call. -/
theorem capacity_bound_and_lru_eviction :
    (∀ (c : LRU) (k : String) (v : CacheEntry),
        c.items.length ≤ c.cap → (c.add k v).items.length ≤ c.cap) ∧
    (∀ (c : LRU) (k : String) (v : CacheEntry),
        getEntry c.items k = none → c.items.length = c.cap → 0 < c.cap →
        (c.add k v).items = (k, v) :: c.items.dropLast) ∧
    (∀ (o : Oracle) (c : LRU) (ks : List String),
        c.items.length ≤ c.cap → (lookupMany o c ks).items.length ≤ c.cap) ∧
    capacityScenario = .ok ([hostKey "b", hostKey "c"], 1, 1) := by
  refine ⟨add_length_le, add_items_of_full, ?_, rfl⟩
  intro o c ks h
  exact (lookupMany_cap_length o ks c h).2

theorem capacity_bound_and_lru_eviction_witness :
    ((LRU.mk 2 [(hostKey "b", CacheEntry.mk ["b.ip"] none),
                (hostKey "a", CacheEntry.mk ["a.ip"] none)]).add
        (hostKey "c") (CacheEntry.mk ["c.ip"] none)).items =
      (hostKey "c", CacheEntry.mk ["c.ip"] none) ::
        [(hostKey "b", CacheEntry.mk ["b.ip"] none),
         (hostKey "a", CacheEntry.mk ["a.ip"] none)].dropLast :=
  capacity_bound_and_lru_eviction.2.1
    (LRU.mk 2 [(hostKey "b", CacheEntry.mk ["b.ip"] none),
               (hostKey "a", CacheEntry.mk ["a.ip"] none)])
    (hostKey "c") (CacheEntry.mk ["c.ip"] none) (by rfl) (by rfl) (by decide)

/-- C7 counterexample: a forward lookup with an empty subject does not
abort: the key is the one-character string `h`, the guard does not fire,
and the underlying resolver is invoked on the empty subject (the marking
oracle returns `ip-` ++ subject, and the result is `ip-`). -/
theorem empty_subject_lookup_proceeds :
    Resolver.LookupHost markingOracle (NewDNSResolver 4) "" =
      .ok { rrs := ["ip-"], err := none,
            cache := LRU.mk 4 [("h", CacheEntry.mk ["ip-"] none)],
            resolverCalls := 1, missHookCalls := 1 } := rfl

/-- C7 amended: the empty-key guard fires only when `lookupFunc` is
handed a fully empty key; a forward or reverse lookup with an empty
subject builds the nonempty key `h` resp. `r`, so the guard does not
fire and an underlying lookup for the empty subject proceeds. -/
theorem empty_key_guard_fires_only_on_empty_key (o : Oracle) (c : LRU) :
    lookupFunc o "" = .error Panic.emptyKey ∧
    (getEntry c.items (hostKey "") = none →
      ∃ eff, lookup o c (hostKey "") = .ok eff ∧ eff.resolverCalls = 1 ∧
        eff.err = (o.lookupHost "").2 ∧
        eff.rrs = (if (o.lookupHost "").2 = none then (o.lookupHost "").1 else [])) ∧
    (getEntry c.items (addrKey "") = none →
      ∃ eff, lookup o c (addrKey "") = .ok eff ∧ eff.resolverCalls = 1 ∧
        eff.err = (o.lookupAddr "").2 ∧
        eff.rrs = (if (o.lookupAddr "").2 = none then (o.lookupAddr "").1 else [])) := by
  refine ⟨rfl, ?_, ?_⟩
  · intro hget
    have hf : lookupFunc o (hostKey "") = .ok (o.lookupHost "") := rfl
    refine ⟨_, lookup_miss o c (hostKey "") (o.lookupHost "") hget hf, ?_, ?_, ?_⟩
    · rfl
    · simp [updateWith_unshared]
    · simp [updateWith_unshared]
  · intro hget
    have hf : lookupFunc o (addrKey "") = .ok (o.lookupAddr "") := rfl
    refine ⟨_, lookup_miss o c (addrKey "") (o.lookupAddr "") hget hf, ?_, ?_, ?_⟩
    · rfl
    · simp [updateWith_unshared]
    · simp [updateWith_unshared]

theorem empty_key_guard_fires_only_on_empty_key_witness :
    lookupFunc markingOracle "" = .error Panic.emptyKey ∧
    (∃ eff, lookup markingOracle (LRU.mk 2 []) (hostKey "") = .ok eff ∧
      eff.resolverCalls = 1 ∧
      eff.err = (markingOracle.lookupHost "").2 ∧
      eff.rrs = (if (markingOracle.lookupHost "").2 = none
                 then (markingOracle.lookupHost "").1 else [])) :=
  ⟨(empty_key_guard_fires_only_on_empty_key markingOracle (LRU.mk 2 [])).1,
   (empty_key_guard_fires_only_on_empty_key markingOracle (LRU.mk 2 [])).2.1 rfl⟩

end Dnscache

namespace Dnscache

/-- C8: the key encoding is injective across operations: a forward key
never equals a reverse key, and two forward (or two reverse) keys
coincide exactly when their subjects do, so a forward and a reverse
request never alias one cache entry. -/
theorem key_encoding_injective :
    (∀ h a : String, hostKey h ≠ addrKey a) ∧
    (∀ h1 h2 : String, hostKey h1 = hostKey h2 ↔ h1 = h2) ∧
    (∀ a1 a2 : String, addrKey a1 = addrKey a2 ↔ a1 = a2) := by
  refine ⟨?_, ?_, ?_⟩
  · intro h a heq
    have hd := congrArg String.data heq
    rw [hostKey_data, addrKey_data] at hd
    exact absurd (List.head_eq_of_cons_eq hd) (by decide)
  · intro h1 h2
    constructor
    · intro heq
      have hd := congrArg String.data heq
      rw [hostKey_data, hostKey_data] at hd
      exact string_eq_of_data_eq (List.tail_eq_of_cons_eq hd)
    · intro heq
      rw [heq]
  · intro a1 a2
    constructor
    · intro heq
      have hd := congrArg String.data heq
      rw [addrKey_data, addrKey_data] at hd
      exact string_eq_of_data_eq (List.tail_eq_of_cons_eq hd)
    · intro heq
      rw [heq]

theorem key_encoding_injective_witness :
    hostKey "example.com" ≠ addrKey "example.com" ∧
    (hostKey "example.com" = hostKey "example.org" ↔ "example.com" = "example.org") :=
  ⟨key_encoding_injective.1 "example.com" "example.com",
   key_encoding_injective.2.1 "example.com" "example.org"⟩

/-- C9: `NewDNSResolver` discards the LRU constructor's error, so a
non-positive capacity yields a resolver whose cache is nil, and every
subsequent operation aborts with a nil dereference instead of the
construction failing. -/
theorem nonpositive_capacity_nil_cache (n : Int) (hn : n ≤ 0) :
    (NewDNSResolver n).cache = none ∧
    (∀ (o : Oracle) (host : String),
        Resolver.LookupHost o (NewDNSResolver n) host = .error Panic.nilCache) ∧
    (∀ (o : Oracle) (addr : String),
        Resolver.LookupAddr o (NewDNSResolver n) addr = .error Panic.nilCache) ∧
    (∀ o : Oracle, Resolver.Refresh o (NewDNSResolver n) = .error Panic.nilCache) := by
  have hc : (NewDNSResolver n).cache = none := by
    simp [NewDNSResolver, lruNew, hn]
  refine ⟨hc, ?_, ?_, ?_⟩
  · intro o host
    simp [Resolver.LookupHost, hc]
  · intro o addr
    simp [Resolver.LookupAddr, hc]
  · intro o
    simp [Resolver.Refresh, hc]

theorem nonpositive_capacity_nil_cache_witness :
    (NewDNSResolver 0).cache = none ∧
    Resolver.LookupHost markingOracle (NewDNSResolver 0) "example.com" =
      .error Panic.nilCache :=
  ⟨(nonpositive_capacity_nil_cache 0 (by decide)).1,
   (nonpositive_capacity_nil_cache 0 (by decide)).2.1 markingOracle "example.com"⟩

/-- C10: `Refresh` never reaches the `OnCacheMiss` hook site (its
hook-site count is zero even though every enumerated key performs an
underlying call), while `lookup` reaches it exactly on a Store miss. -/
theorem refresh_skips_miss_hook (o : Oracle) (c : LRU)
    (hv : ∀ k ∈ c.items.map Prod.fst, validKey k) :
    (∃ c' rc, Refresh o c = .ok (c', rc, 0) ∧ rc = c.items.length) ∧
    (∀ (k : String) (eff : OpResult), lookup o c k = .ok eff →
      eff.missHookCalls = (if (getEntry c.items k).isSome then 0 else 1)) := by
  constructor
  · have hkeys : c.keys = (c.items.map Prod.fst).reverse := rfl
    obtain ⟨c', hc', _⟩ := refreshLoop_spec o c.keys c 0 0
      (fun k hk => hv k (by rw [hkeys] at hk; exact List.mem_reverse.1 hk))
      (fun k hk => by rw [hkeys] at hk; exact List.mem_reverse.1 hk)
    refine ⟨c', 0 + c.keys.length, hc', ?_⟩
    rw [hkeys]
    simp
  · intro k eff h
    cases hget : getEntry c.items k with
    | some entry =>
        rw [lookup_hit o c k entry hget] at h
        simp only [Except.ok.injEq] at h
        subst h
        simp
    | none =>
        cases hf : lookupFunc o k with
        | error e =>
            rw [lookup_miss_err o c k e hget hf] at h
            cases h
        | ok p =>
            rw [lookup_miss o c k p hget hf] at h
            simp only [Except.ok.injEq] at h
            subst h
            simp

theorem refresh_skips_miss_hook_witness :
    (∃ c' rc, Refresh scenarioOracle oneEntryCache = .ok (c', rc, 0) ∧
      rc = oneEntryCache.items.length) ∧
    (∀ (k : String) (eff : OpResult), lookup scenarioOracle oneEntryCache k = .ok eff →
      eff.missHookCalls = (if (getEntry oneEntryCache.items k).isSome then 0 else 1)) :=
  refresh_skips_miss_hook scenarioOracle oneEntryCache
    (by
      intro k hk
      simp [oneEntryCache] at hk
      subst hk
      exact ⟨"a".data, Or.inl rfl⟩)

end Dnscache
